import Mathlib

set_option maxHeartbeats 1000000

/-!
Verification development for the otlpxy asynchronous OTLP proxy.

The definitions below are a shallow embedding of the repository's Go code:
the ingress adapter (`internal/handler/http/proxy/proxy_handler.go`), the
three forwarder variants (`internal/worker` pool — whose source appears in
`CONTRIBUTING.md` —, `internal/forwarder/semaphore_forwarder.go` and the
hybrid forwarder), and the upstream-sender bodies of the worker loops.

Byte sequences are modelled as `List Nat`, Go `http.Header` maps as
association lists with unique keys, and the concurrent forwarders as
labelled transition systems whose steps are the atomic operations of the
code (submit, dequeue, finish, worker exit, stop).  Counters and gauges are
plain naturals in the states.
-/

namespace Otlpxy

/-! ## Characters and strings

Helpers mirroring the Go string functions used by the proxy:
`strings.ToLower` / `strings.EqualFold` (applied only to ASCII header
names in the code) and `textproto.CanonicalMIMEHeaderKey`.
-/

/-- ASCII lower-casing of one character (the action of `strings.ToLower`
on the ASCII header names handled by the proxy). -/
def lowerChar (c : Char) : Char :=
  if 65 ≤ c.toNat ∧ c.toNat ≤ 90 then Char.ofNat (c.toNat + 32) else c

/-- `strings.ToLower` restricted to ASCII, as applied to header names. -/
def toLowerStr (s : String) : String := String.mk (s.data.map lowerChar)

/-- `lo ≤ n ≤ hi` as a boolean. -/
def natBetween (lo n hi : Nat) : Bool := Nat.ble lo n && Nat.ble n hi

/-- `validHeaderFieldByte` of `net/textproto`: the RFC 7230 token characters. -/
def isTokenChar (c : Char) : Bool :=
  let n := c.toNat
  natBetween 97 n 122 || natBetween 65 n 90 || natBetween 48 n 57 ||
  n == 33 || natBetween 35 n 39 || n == 42 || n == 43 || n == 45 || n == 46 ||
  natBetween 94 n 96 || n == 124 || n == 126

/-- One character of the canonicalisation loop of
`textproto.CanonicalMIMEHeaderKey`: upper-case a letter at the start of a
word, lower-case it otherwise. -/
def canonStep (upper : Bool) (c : Char) : Char :=
  let n := c.toNat
  if upper && natBetween 97 n 122 then Char.ofNat (n - 32)
  else if !upper && natBetween 65 n 90 then Char.ofNat (n + 32)
  else c

/-- The canonicalisation loop: a word starts at the beginning and after
each hyphen. -/
def canonList (upper : Bool) : List Char → List Char
  | [] => []
  | c :: rest =>
    let c2 := canonStep upper c
    c2 :: canonList (c2 == '-') rest

/-- `textproto.CanonicalMIMEHeaderKey`: canonicalise a header key, or
return it unchanged when it contains a non-token character. -/
def canonicalMIMEHeaderKey (s : String) : String :=
  if s.data.all isTokenChar then String.mk (canonList true s.data) else s

/-- `strings.HasPrefix` on the underlying character lists. -/
def listStartsWith : List Char → List Char → Bool
  | [], _ => true
  | _ :: _, [] => false
  | p :: ps, c :: cs => p == c && listStartsWith ps cs

/-! ## Headers

Go's `http.Header` is a map from canonical header keys to ordered value
slices.  It is embedded as an association list with unique keys;
`Add`/`Set`/`Get` follow `net/textproto` (`h[k] = append(h[k], v)`,
`h[k] = []string{v}`, first value or `""`), canonicalising the key first.
-/

abbrev Header := List (String × List String)

/-- Update the value slice at key `k` through `f`, inserting the key if
absent — the shape shared by `MIMEHeader.Add` and `MIMEHeader.Set`. -/
def upsertEntry (f : List String → List String) : Header → String → Header
  | [], k => [(k, f [])]
  | p :: t, k => if p.1 == k then (p.1, f p.2) :: t else p :: upsertEntry f t k

/-- The value slice stored at key `k` (Go map indexing; `[]` when absent). -/
def valuesOf : Header → String → List String
  | [], _ => []
  | p :: t, k => if p.1 == k then p.2 else valuesOf t k

/-- `http.Header.Add`: canonicalise the key and append the value. -/
def Header.add (h : Header) (k v : String) : Header :=
  upsertEntry (fun vs => vs ++ [v]) h (canonicalMIMEHeaderKey k)

/-- `http.Header.set` is Go `Header.Set`: canonicalise the key and replace
the values by the single given one. -/
def Header.set (h : Header) (k v : String) : Header :=
  upsertEntry (fun _ => [v]) h (canonicalMIMEHeaderKey k)

/-- `http.Header.Get`: first value at the canonicalised key, `""` when
missing or empty. -/
def Header.get (h : Header) (k : String) : String :=
  match valuesOf h (canonicalMIMEHeaderKey k) with
  | v :: _ => v
  | [] => ""

/-- Observer used in the claims: the multi-values stored at an (already
canonical) key. -/
def Header.values (h : Header) (k : String) : List String := valuesOf h k

/-- All keys of the header satisfy `canonicalMIMEHeaderKey k = k`, as is
the case for every header parsed by Go's HTTP machinery. -/
def headerKeysCanonical (h : Header) : Prop :=
  ∀ a ∈ h.map Prod.fst, canonicalMIMEHeaderKey a = a

/-- The keys are pairwise distinct (Go maps cannot hold a key twice). -/
def headerKeysNodup (h : Header) : Prop := (h.map Prod.fst).Nodup

/-- Well-formedness of a header produced by Go's parser. -/
def parsedHeaderWF (h : Header) : Prop := headerKeysCanonical h ∧ headerKeysNodup h

/-! ## Ingress adapter (`ProxyHandler.handleAsync`) -/

/-- The RFC 7230 hop-by-hop names of the `isHopByHop` closure in
`proxy_handler.go`. -/
def hopByHopHeaderNames : List String :=
  ["connection", "keep-alive", "proxy-authenticate", "proxy-authorization", "te",
   "trailer", "transfer-encoding", "upgrade", "proxy-connection"]

/-- The `isHopByHop` closure: lower-case the name and compare against the
hop-by-hop list. -/
def isHopByHop (name : String) : Bool :=
  hopByHopHeaderNames.contains (toLowerStr name)

/-- A header-copying loop `for k, vals := range src { for _, v := range vals
{ dst.Add(k, v) } }` with a per-entry skip condition, the common shape of the
three copy loops in the code. -/
def copyHeadersAux (skip : String × List String → Bool) (acc : Header) :
    Header → Header
  | [] => acc
  | p :: t =>
    copyHeadersAux skip
      (if skip p then acc else p.2.foldl (fun a v => Header.add a p.1 v) acc) t

/-- The skip condition of the async copy loop (`proxy_handler.go` lines
172-183): empty value slice, `Host` (via `strings.EqualFold`), or
hop-by-hop. -/
def asyncSkip (p : String × List String) : Bool :=
  p.2.isEmpty || toLowerStr p.1 == "host" || isHopByHop p.1

/-- The async copy loop over the client headers. -/
def copyClientHeaders (reqHeaders : Header) : Header :=
  copyHeadersAux asyncSkip [] reqHeaders

/-- Header construction of `handleAsync` (lines 153-193): copy the client
headers minus `Host` and hop-by-hop, default `Content-Type`, then override
`Authorization` with the API key when it is non-empty. -/
def buildAsyncHeaders (reqHeaders : Header) (apiKey : String) : Header :=
  let contentType0 := Header.get reqHeaders "Content-Type"
  let contentType := if contentType0 == "" then "application/x-protobuf" else contentType0
  let base := copyClientHeaders reqHeaders
  let base2 :=
    if Header.get base "Content-Type" == "" then Header.set base "Content-Type" contentType
    else base
  if apiKey == "" then base2 else Header.set base2 "Authorization" apiKey

/-- `worker.Job` (and the forwarding task of the other variants): buffered
body, target URL and headers. -/
structure Job where
  Body : List Nat
  TargetURL : String
  Headers : Header
deriving DecidableEq

/-- The reply of `handleAsync`: the HTTP status written to the client and
the job handed to `Forwarder.Submit` (when the body could be read). -/
structure AsyncReply where
  status : Nat
  submitted : Option Job
deriving DecidableEq

/-- `ProxyHandler.handleAsync` (lines 145-205).  `bodyRead` is the result
of `io.ReadAll` on the request body; `submitErr` tells whether
`forwarder.Submit` returned an error.  The job field records what was
handed to the forwarder. -/
def handleAsync (bodyRead : Option (List Nat)) (reqHeaders : Header)
    (apiKey targetURL path : String) (submitErr : Bool) : AsyncReply :=
  match bodyRead with
  | none => ⟨400, none⟩
  | some body =>
    let headers := buildAsyncHeaders reqHeaders apiKey
    let job : Job := ⟨body, targetURL ++ path, headers⟩
    if submitErr then ⟨503, some job⟩ else ⟨202, some job⟩

/-! ## Upstream sender bodies

The per-job body of `Pool.worker` (CONTRIBUTING.md lines 271-321), of the
goroutine spawned by `SemaphoreForwarder.Submit` (lines 85-122) and of the
detached sender of `HybridForwarder.worker` (lines 267-300), embedded as the
sequence of observable effects they perform.  The outcome of the HTTP
exchange is an input: request construction failure, transport failure, or a
response with a status code.
-/

/-- How the upstream exchange of one job turns out. -/
inductive JobOutcome
  | createError
  | transportError
  | response (status : Nat)
deriving DecidableEq

/-- Observable effects of one sender execution.  `drainBody` would be an
explicit read-to-EOF of the response body (`io.Copy(io.Discard, ...)`);
the repository's senders never perform it, only `closeBody`. -/
inductive WorkerEvent
  | incActive
  | decActive
  | sendPOST (url : String) (body : List Nat) (headers : Header)
  | drainBody
  | closeBody
  | incProcessed
  | incFailed
  | releasePermit
  | acquireToken
  | releaseToken
deriving DecidableEq

/-- The header-copy loop of the senders (`req.Header.Add(k, v)` over all
entries, no skip). -/
def workerBuildHeaders (jh : Header) : Header :=
  copyHeadersAux (fun _ => false) [] jh

/-- Status classification shared by all three senders:
`resp.StatusCode < 200 || resp.StatusCode >= 300` is a failure. -/
def classifyEvents (st : Nat) : List WorkerEvent :=
  if st < 200 ∨ 300 ≤ st then [.incFailed] else [.incProcessed]

/-- Per-job body of `Pool.worker` (CONTRIBUTING.md lines 271-321). -/
def workerProcessJob (job : Job) (o : JobOutcome) : List WorkerEvent :=
  match o with
  | .createError => [.incActive, .incFailed, .decActive, .releasePermit]
  | .transportError =>
    [.incActive, .sendPOST job.TargetURL job.Body (workerBuildHeaders job.Headers),
     .incFailed, .decActive, .releasePermit]
  | .response st =>
    [.incActive, .sendPOST job.TargetURL job.Body (workerBuildHeaders job.Headers),
     .closeBody] ++ classifyEvents st ++ [.decActive, .releasePermit]

/-- Body of the goroutine spawned by `SemaphoreForwarder.Submit`
(`semaphore_forwarder.go` lines 85-122). -/
def semaphoreTaskEvents (job : Job) (o : JobOutcome) : List WorkerEvent :=
  match o with
  | .createError => [.acquireToken, .incActive, .incFailed, .decActive, .releaseToken]
  | .transportError =>
    [.acquireToken, .incActive,
     .sendPOST job.TargetURL job.Body (workerBuildHeaders job.Headers),
     .incFailed, .decActive, .releaseToken]
  | .response st =>
    [.acquireToken, .incActive,
     .sendPOST job.TargetURL job.Body (workerBuildHeaders job.Headers),
     .closeBody] ++ classifyEvents st ++ [.decActive, .releaseToken]

/-- Body of the detached sender of `HybridForwarder.worker` (lines
267-300); the token was acquired by the dispatcher. -/
def hybridSendEvents (job : Job) (o : JobOutcome) : List WorkerEvent :=
  match o with
  | .createError => [.incActive, .incFailed, .decActive, .releaseToken]
  | .transportError =>
    [.incActive, .sendPOST job.TargetURL job.Body (workerBuildHeaders job.Headers),
     .incFailed, .decActive, .releaseToken]
  | .response st =>
    [.incActive, .sendPOST job.TargetURL job.Body (workerBuildHeaders job.Headers),
     .closeBody] ++ classifyEvents st ++ [.decActive, .releaseToken]

/-! ## Sync-debug logs path (`ProxyHandler.HandleLogs`, lines 111-133) -/

/-- The skip condition of the response-header copy loop: lowercase name
starting with `access-control-`, or `vary`, `content-length`,
`transfer-encoding`, `connection`. -/
def dropRespHeaderKey (k : String) : Bool :=
  let lk := toLowerStr k
  listStartsWith "access-control-".data lk.data || lk == "vary" ||
  lk == "content-length" || lk == "transfer-encoding" || lk == "connection"

/-- The response-header copy loop of the sync path. -/
def copyRespHeaders (respHeaders : Header) : Header :=
  copyHeadersAux (fun p => dropRespHeaderKey p.1) [] respHeaders

/-- The reply written to the client on the sync-debug path: upstream
status, upstream body (`io.Copy`) and the filtered upstream headers. -/
structure SyncReply where
  status : Nat
  body : List Nat
  headers : Header
deriving DecidableEq

/-- `HandleLogs` sync tail (lines 111-133): copy filtered headers, write
the upstream status, stream the upstream body. -/
def handleLogsSyncReply (respStatus : Nat) (respBody : List Nat)
    (respHeaders : Header) : SyncReply :=
  ⟨respStatus, respBody, copyRespHeaders respHeaders⟩

/-! ## Header lemmas -/

/-! ## `buildAsyncHeaders` facts used by the claims -/

/-! ## Labelled transition systems for the forwarder variants

Each forwarder is embedded as a state machine whose steps are the atomic
operations of the code.  Steps are deterministic given a label, so a whole
execution is a label list fed to a `runSteps` interpreter; nondeterminism
(scheduling, the stop timer) lives in the choice of the label list.  The
two in-Go slivers that are collapsed into one atomic step are noted at the
individual step definitions.
-/

/-- Run a deterministic labelled step function over a list of labels;
`none` when some label is not enabled. -/
def runSteps {σ L : Type} (step : σ → L → Option σ) : σ → List L → Option σ
  | s, [] => some s
  | s, l :: ls =>
    match step s l with
    | some s2 => runSteps step s2 ls
    | none => none

/-- The (processed, failed) counter increments of one finished job, from
the classification shared by the three sender bodies
(`resp.StatusCode < 200 || resp.StatusCode >= 300` fails, request-creation
and transport errors fail, otherwise processed). -/
def jobCounterDelta (o : JobOutcome) : Nat × Nat :=
  match o with
  | .createError => (0, 1)
  | .transportError => (0, 1)
  | .response st => if st < 200 ∨ 300 ≤ st then (0, 1) else (1, 0)

/-! ### Pooled forwarder (`worker.Pool`, CONTRIBUTING.md lines 105-324) -/

/-- Pool parameters after `NewPool` defaulting: `workerCount` workers and
a job queue of capacity `jobQueueSize`; the permits channel has capacity
`workerCount + jobQueueSize`. -/
structure PoolCfg where
  workerCount : Nat
  jobQueueSize : Nat
deriving DecidableEq

/-- Abstract pool state.  `queued` counts accepted jobs not yet taken by a
worker, `inflight` the jobs being processed (with their eventual outcome),
`permits` the occupancy of the permits channel, `exited` the workers that
left the range loop, `closed` whether `Stop` closed the job queue,
`panicked` whether a send on the closed queue happened. -/
structure PoolState where
  queued : Nat
  inflight : List JobOutcome
  permits : Nat
  exited : Nat
  closed : Bool
  stopReturned : Bool
  stopCompleted : Bool
  panicked : Bool
  processed : Nat
  failed : Nat
  finished : Nat
deriving DecidableEq

/-- The state before `Start`: empty queue, no permits held, counters zero. -/
def poolInitState : PoolState :=
  ⟨0, [], 0, 0, false, false, false, false, 0, 0, 0⟩

/-- Result of one `SubmitJob` call. -/
inductive SubmitOutcome
  | accepted
  | rejected
  | panicked
deriving DecidableEq

/-- `Pool.SubmitJob` (lines 245-258): non-blocking acquire on the permits
channel — `rejected` when it is full — then a send on the job queue, which
in Go panics when `Stop` has closed the queue.  The permit-acquire and the
queue send are one atomic step here (in Go a task can briefly hold a permit
before the queue send completes; the task is outstanding either way). -/
def poolSubmitJob (cfg : PoolCfg) (s : PoolState) : PoolState × SubmitOutcome :=
  if s.permits = cfg.workerCount + cfg.jobQueueSize then (s, .rejected)
  else if s.closed then ({ s with panicked := true }, .panicked)
  else ({ s with permits := s.permits + 1, queued := s.queued + 1 }, .accepted)

/-- Atomic operations of the pool.  `startJob o` is a worker receiving a
job from the queue and beginning to process it (building the request and —
unless request creation fails — initiating the upstream POST); `finishJob`
is the end of the loop body (counter update, permit release). -/
inductive PoolLabel
  | submit
  | startJob (o : JobOutcome)
  | finishJob (o : JobOutcome)
  | workerExit
  | stopCall
  | stopComplete
  | stopTimeout
deriving DecidableEq

/-- One step of the pool.  After a panic the program has crashed, so no
further step is enabled. -/
def poolStep (cfg : PoolCfg) (s : PoolState) : PoolLabel → Option PoolState
  | .submit =>
    if s.panicked then none else some (poolSubmitJob cfg s).1
  | .startJob o =>
    if s.panicked then none
    else if 0 < s.queued ∧ s.inflight.length + s.exited < cfg.workerCount then
      some { s with queued := s.queued - 1, inflight := o :: s.inflight }
    else none
  | .finishJob o =>
    if s.panicked then none
    else if o ∈ s.inflight then
      some { s with inflight := s.inflight.erase o,
                    permits := s.permits - 1,
                    processed := s.processed + (jobCounterDelta o).1,
                    failed := s.failed + (jobCounterDelta o).2,
                    finished := s.finished + 1 }
    else none
  | .workerExit =>
    if s.panicked then none
    else if s.closed ∧ s.queued = 0 ∧ s.inflight.length + s.exited < cfg.workerCount then
      some { s with exited := s.exited + 1 }
    else none
  | .stopCall =>
    if s.panicked then none
    else if s.closed then none else some { s with closed := true }
  | .stopComplete =>
    if s.panicked then none
    else if s.closed ∧ s.stopReturned = false ∧ s.exited = cfg.workerCount ∧
        s.inflight = [] then
      some { s with stopReturned := true, stopCompleted := true }
    else none
  | .stopTimeout =>
    if s.panicked then none
    else if s.closed ∧ s.stopReturned = false then
      some { s with stopReturned := true }
    else none

/-- Executions of the pool from a state. -/
def poolRun (cfg : PoolCfg) : PoolState → List PoolLabel → Option PoolState :=
  runSteps (poolStep cfg)

/-- Labels at which a worker initiates a new upstream POST: taking a job
whose request construction succeeds. -/
def poolIsPostInit : PoolLabel → Bool
  | .startJob .createError => false
  | .startJob _ => true
  | _ => false

/-! ### Semaphore forwarder (`semaphore_forwarder.go`) -/

/-- `NewSemaphoreForwarder` parameter after defaulting. -/
structure SemCfg where
  maxConcurrent : Nat
deriving DecidableEq

/-- Abstract semaphore-forwarder state: `pending` goroutines waiting for a
token (the waiters gauge), `active` senders holding a token. -/
structure SemState where
  pending : Nat
  active : List JobOutcome
  stopped : Bool
  stopReturned : Bool
  stopCompleted : Bool
  processed : Nat
  failed : Nat
  finished : Nat
deriving DecidableEq

def semInitState : SemState := ⟨0, [], false, false, false, 0, 0, 0⟩

/-- Result of `SemaphoreForwarder.Submit`: always `nil`, but with the task
either dropped (after stop) or spawned as a goroutine. -/
inductive SemSubmitOutcome
  | droppedOk
  | spawnedOk
deriving DecidableEq

/-- `SemaphoreForwarder.Submit` (lines 79-84 head): return `nil` without
spawning when stopped, otherwise spawn a unit of work. -/
def semSubmit (s : SemState) : SemState × SemSubmitOutcome :=
  if s.stopped then (s, .droppedOk)
  else ({ s with pending := s.pending + 1 }, .spawnedOk)

inductive SemLabel
  | submit
  | acquire (o : JobOutcome)
  | finish (o : JobOutcome)
  | stopCall
  | stopComplete
  | stopTimeout
deriving DecidableEq

/-- One step of the semaphore forwarder.  `acquire o` is a pending unit
obtaining a token and starting its send (initiating the POST unless
request creation fails); `finish` is its termination (counter update,
token release, wait-group done). -/
def semStep (cfg : SemCfg) (s : SemState) : SemLabel → Option SemState
  | .submit => some (semSubmit s).1
  | .acquire o =>
    if 0 < s.pending ∧ s.active.length < cfg.maxConcurrent then
      some { s with pending := s.pending - 1, active := o :: s.active }
    else none
  | .finish o =>
    if o ∈ s.active then
      some { s with active := s.active.erase o,
                    processed := s.processed + (jobCounterDelta o).1,
                    failed := s.failed + (jobCounterDelta o).2,
                    finished := s.finished + 1 }
    else none
  | .stopCall => if s.stopped then none else some { s with stopped := true }
  | .stopComplete =>
    if s.stopped ∧ s.stopReturned = false ∧ s.pending = 0 ∧ s.active = [] then
      some { s with stopReturned := true, stopCompleted := true }
    else none
  | .stopTimeout =>
    if s.stopped ∧ s.stopReturned = false then some { s with stopReturned := true }
    else none

def semRun (cfg : SemCfg) : SemState → List SemLabel → Option SemState :=
  runSteps (semStep cfg)

def semIsPostInit : SemLabel → Bool
  | .acquire .createError => false
  | .acquire _ => true
  | _ => false

/-! ### Hybrid forwarder (`HybridForwarder`) -/

structure HybCfg where
  workerCount : Nat
  jobQueueSize : Nat
  maxConcurrent : Nat
deriving DecidableEq

/-- Abstract hybrid-forwarder state: `queued` jobs in the queue, `holding`
dispatchers that took a job and wait for a token, `active` detached
senders, `exited` dispatchers that left the range loop. -/
structure HybState where
  queued : Nat
  holding : Nat
  active : List JobOutcome
  exited : Nat
  stopped : Bool
  stopReturned : Bool
  stopCompleted : Bool
  processed : Nat
  failed : Nat
  finished : Nat
deriving DecidableEq

def hybInitState : HybState := ⟨0, 0, [], 0, false, false, false, 0, 0, 0⟩

inductive HybSubmitOutcome
  | ok
  | errStopped
  | errQueueFull
deriving DecidableEq

/-- `HybridForwarder.Submit` (lines 240-252): error when stopped, then a
non-blocking enqueue — rejected when the buffer is full. -/
def hybSubmit (cfg : HybCfg) (s : HybState) : HybState × HybSubmitOutcome :=
  if s.stopped then (s, .errStopped)
  else if s.queued = cfg.jobQueueSize then (s, .errQueueFull)
  else ({ s with queued := s.queued + 1 }, .ok)

inductive HybLabel
  | submit
  | dispatch
  | acquireSpawn (o : JobOutcome)
  | finish (o : JobOutcome)
  | dispatcherExit
  | stopCall
  | stopComplete
  | stopTimeout
deriving DecidableEq

/-- One step of the hybrid forwarder.  `dispatch` is a dispatcher taking a
job from the queue; `acquireSpawn o` is that dispatcher acquiring a token
and spawning the detached sender (which initiates the POST unless request
creation fails); `finish` is the sender's termination. -/
def hybStep (cfg : HybCfg) (s : HybState) : HybLabel → Option HybState
  | .submit => some (hybSubmit cfg s).1
  | .dispatch =>
    if 0 < s.queued ∧ s.holding + s.exited < cfg.workerCount then
      some { s with queued := s.queued - 1, holding := s.holding + 1 }
    else none
  | .acquireSpawn o =>
    if 0 < s.holding ∧ s.active.length < cfg.maxConcurrent then
      some { s with holding := s.holding - 1, active := o :: s.active }
    else none
  | .finish o =>
    if o ∈ s.active then
      some { s with active := s.active.erase o,
                    processed := s.processed + (jobCounterDelta o).1,
                    failed := s.failed + (jobCounterDelta o).2,
                    finished := s.finished + 1 }
    else none
  | .dispatcherExit =>
    if s.stopped ∧ s.queued = 0 ∧ s.holding + s.exited < cfg.workerCount then
      some { s with exited := s.exited + 1 }
    else none
  | .stopCall => if s.stopped then none else some { s with stopped := true }
  | .stopComplete =>
    if s.stopped ∧ s.stopReturned = false ∧ s.exited = cfg.workerCount ∧
        s.active = [] ∧ s.holding = 0 then
      some { s with stopReturned := true, stopCompleted := true }
    else none
  | .stopTimeout =>
    if s.stopped ∧ s.stopReturned = false then some { s with stopReturned := true }
    else none

def hybRun (cfg : HybCfg) : HybState → List HybLabel → Option HybState :=
  runSteps (hybStep cfg)

def hybIsPostInit : HybLabel → Bool
  | .acquireSpawn .createError => false
  | .acquireSpawn _ => true
  | _ => false

/-! ## Pool invariants -/

/-- The permit discipline of the pool: the permits channel holds exactly
one token per outstanding job, and never more than its capacity. -/
def poolInv (cfg : PoolCfg) (s : PoolState) : Prop :=
  s.permits = s.queued + s.inflight.length ∧
  s.permits ≤ cfg.workerCount + cfg.jobQueueSize

/-- Counter bookkeeping: every finished job bumped exactly one counter. -/
def poolCounterInv (s : PoolState) : Prop :=
  s.processed + s.failed = s.finished

/-- After `Stop` returned with its wait completed: the queue is closed,
all workers have exited and nothing is in flight. -/
def poolDead (cfg : PoolCfg) (s : PoolState) : Prop :=
  s.closed = true ∧ s.stopReturned = true ∧ s.exited = cfg.workerCount ∧
  s.inflight = []

/-- Once `stopCompleted` is observed, the dead-state facts hold. -/
def poolStopInv (cfg : PoolCfg) (s : PoolState) : Prop :=
  s.stopCompleted = true → poolDead cfg s

/-! ## Semaphore-forwarder invariants -/

/-- Counter bookkeeping for the semaphore forwarder. -/
def semCounterInv (s : SemState) : Prop :=
  s.processed + s.failed = s.finished

/-- After `Stop` returned with its wait completed: stopped, and the
wait-group empty (no pending, no active units). -/
def semDead (s : SemState) : Prop :=
  s.stopped = true ∧ s.stopReturned = true ∧ s.pending = 0 ∧ s.active = []

def semStopInv (s : SemState) : Prop := s.stopCompleted = true → semDead s

/-! ## Hybrid-forwarder invariants -/

/-- After `Stop` returned with both wait-groups done: stopped, all
dispatchers exited (hence none holding a job), no active sender. -/
def hybDead (cfg : HybCfg) (s : HybState) : Prop :=
  s.stopped = true ∧ s.stopReturned = true ∧ s.exited = cfg.workerCount ∧
  s.holding = 0 ∧ s.active = []

def hybStopInv (cfg : HybCfg) (s : HybState) : Prop :=
  s.stopCompleted = true → hybDead cfg s

/-! ## Claims -/

/-- The two counters touched by one sender execution, read off its event
list. -/
def eventCounters (evs : List WorkerEvent) : Nat × Nat :=
  (evs.count WorkerEvent.incProcessed, evs.count WorkerEvent.incFailed)

/-- Claim C2 as stated: every non-`Host`, non-hop-by-hop client header —
other than `Authorization` under a configured credential — appears on the
upstream request with identical multi-values (with `Content-Type`
defaulting claimed only "when absent"). -/
def claimC2HeadersAsStated : Prop :=
  ∀ (reqHeaders : Header) (apiKey : String), parsedHeaderWF reqHeaders →
    ∀ (k : String) (vals : List String), (k, vals) ∈ reqHeaders → vals ≠ [] →
      toLowerStr k ≠ "host" → isHopByHop k = false →
      (apiKey ≠ "" → k ≠ "Authorization") →
      Header.values (buildAsyncHeaders reqHeaders apiKey) k = vals

/-- Claim C6 as stated: for every variant, once `stop` has returned — by
completed wait or by timeout — no step that initiates a new upstream POST
is enabled. -/
def claimC6AsStated : Prop :=
  (∀ (cfg : PoolCfg) (ls : List PoolLabel) (s : PoolState) (l : PoolLabel)
      (s' : PoolState),
    poolRun cfg poolInitState ls = some s → s.stopReturned = true →
    poolStep cfg s l = some s' → poolIsPostInit l = false) ∧
  (∀ (cfg : SemCfg) (ls : List SemLabel) (s : SemState) (l : SemLabel) (s' : SemState),
    semRun cfg semInitState ls = some s → s.stopReturned = true →
    semStep cfg s l = some s' → semIsPostInit l = false) ∧
  (∀ (cfg : HybCfg) (ls : List HybLabel) (s : HybState) (l : HybLabel) (s' : HybState),
    hybRun cfg hybInitState ls = some s → s.stopReturned = true →
    hybStep cfg s l = some s' → hybIsPostInit l = false)

/-- Claim C7 as stated: when the shutdown timeout expires, each task still
queued is counted into `jobs_failed_total`. -/
def claimC7AsStated : Prop :=
  ∀ (cfg : PoolCfg) (ls : List PoolLabel) (s s' : PoolState),
    poolRun cfg poolInitState ls = some s →
    poolStep cfg s PoolLabel.stopTimeout = some s' →
    s'.failed = s.failed + s.queued

/-- Claim C8 as stated: on every sender exit path that received a
response, the body is read to completion (an explicit drain) and only then
closed, in each of the three sender bodies. -/
def claimC8AsStated : Prop :=
  ∀ (job : Job) (st : Nat),
    (∃ i j, i < j ∧
      (workerProcessJob job (JobOutcome.response st)).get? i =
        some WorkerEvent.drainBody ∧
      (workerProcessJob job (JobOutcome.response st)).get? j =
        some WorkerEvent.closeBody) ∧
    (∃ i j, i < j ∧
      (semaphoreTaskEvents job (JobOutcome.response st)).get? i =
        some WorkerEvent.drainBody ∧
      (semaphoreTaskEvents job (JobOutcome.response st)).get? j =
        some WorkerEvent.closeBody) ∧
    (∃ i j, i < j ∧
      (hybridSendEvents job (JobOutcome.response st)).get? i =
        some WorkerEvent.drainBody ∧
      (hybridSendEvents job (JobOutcome.response st)).get? j =
        some WorkerEvent.closeBody)

/-- Claim C9 as stated: with an empty credential no `Authorization`
header appears on the upstream request, even when the client sent one. -/
def claimC9AsStated : Prop :=
  ∀ reqHeaders : Header, parsedHeaderWF reqHeaders →
    Header.values (buildAsyncHeaders reqHeaders "") "Authorization" = []

/-! ## Theorems -/

theorem canon_contentType : canonicalMIMEHeaderKey "Content-Type" = "Content-Type" := by
  decide

theorem canon_authorization : canonicalMIMEHeaderKey "Authorization" = "Authorization" := by
  decide

theorem valuesOf_upsert_self (f : List String → List String) (h : Header) (k : String) :
    valuesOf (upsertEntry f h k) k = f (valuesOf h k) := by
  induction h with
  | nil => simp [upsertEntry, valuesOf]
  | cons p t ih =>
    by_cases hp : p.1 = k
    · simp [upsertEntry, valuesOf, hp]
    · simp [upsertEntry, valuesOf, hp, ih]

theorem valuesOf_upsert_other (f : List String → List String) (h : Header) (k k' : String)
    (hne : k' ≠ k) : valuesOf (upsertEntry f h k) k' = valuesOf h k' := by
  induction h with
  | nil => simp [upsertEntry, valuesOf, Ne.symm hne]
  | cons p t ih =>
    by_cases hp : p.1 = k
    · simp [upsertEntry, valuesOf, hp, Ne.symm hne, hne]
    · by_cases hp' : p.1 = k'
      · simp [upsertEntry, valuesOf, hp, hp', hne]
      · simp [upsertEntry, valuesOf, hp, hp', ih]

theorem keys_upsert_mem (f : List String → List String) (h : Header) (k : String)
    (hk : k ∈ h.map Prod.fst) :
    (upsertEntry f h k).map Prod.fst = h.map Prod.fst := by
  induction h with
  | nil => simp at hk
  | cons p t ih =>
    by_cases hp : p.1 = k
    · simp [upsertEntry, hp]
    · simp only [List.map_cons, List.mem_cons] at hk
      rcases hk with hk | hk
      · exact absurd hk.symm hp
      · simp [upsertEntry, hp, ih hk]

theorem keys_upsert_notmem (f : List String → List String) (h : Header) (k : String)
    (hk : k ∉ h.map Prod.fst) :
    (upsertEntry f h k).map Prod.fst = h.map Prod.fst ++ [k] := by
  induction h with
  | nil => simp [upsertEntry]
  | cons p t ih =>
    simp only [List.map_cons, List.mem_cons] at hk
    push_neg at hk
    simp [upsertEntry, Ne.symm hk.1, ih hk.2]

theorem nodup_upsert (f : List String → List String) (h : Header) (k : String)
    (hnd : headerKeysNodup h) : headerKeysNodup (upsertEntry f h k) := by
  unfold headerKeysNodup at *
  by_cases hk : k ∈ h.map Prod.fst
  · rw [keys_upsert_mem f h k hk]; exact hnd
  · rw [keys_upsert_notmem f h k hk]
    simp [List.nodup_append, hnd, hk]

theorem keysCanonical_upsert (f : List String → List String) (h : Header) (k : String)
    (hc : headerKeysCanonical h) (hk : canonicalMIMEHeaderKey k = k) :
    headerKeysCanonical (upsertEntry f h k) := by
  unfold headerKeysCanonical at *
  by_cases hmem : k ∈ h.map Prod.fst
  · rw [keys_upsert_mem f h k hmem]; exact hc
  · rw [keys_upsert_notmem f h k hmem]
    intro a ha
    rcases List.mem_append.mp ha with ha | ha
    · exact hc a ha
    · simp only [List.mem_singleton] at ha
      subst ha; exact hk

theorem values_add_self (h : Header) (k v : String) (hk : canonicalMIMEHeaderKey k = k) :
    Header.values (Header.add h k v) k = Header.values h k ++ [v] := by
  unfold Header.values Header.add
  rw [hk, valuesOf_upsert_self]

theorem values_add_other (h : Header) (k v k' : String)
    (hk : canonicalMIMEHeaderKey k = k) (hne : k' ≠ k) :
    Header.values (Header.add h k v) k' = Header.values h k' := by
  unfold Header.values Header.add
  rw [hk, valuesOf_upsert_other _ _ _ _ hne]

theorem values_set_self (h : Header) (k v : String) (hk : canonicalMIMEHeaderKey k = k) :
    Header.values (Header.set h k v) k = [v] := by
  unfold Header.values Header.set
  rw [hk, valuesOf_upsert_self]

theorem values_set_other (h : Header) (k v k' : String)
    (hk : canonicalMIMEHeaderKey k = k) (hne : k' ≠ k) :
    Header.values (Header.set h k v) k' = Header.values h k' := by
  unfold Header.values Header.set
  rw [hk, valuesOf_upsert_other _ _ _ _ hne]

theorem values_addAll_self (vals : List String) (acc : Header) (k : String)
    (hk : canonicalMIMEHeaderKey k = k) :
    Header.values (vals.foldl (fun a v => Header.add a k v) acc) k =
      Header.values acc k ++ vals := by
  induction vals generalizing acc with
  | nil => simp
  | cons v vs ih =>
    rw [List.foldl_cons, ih (Header.add acc k v), values_add_self acc k v hk,
      List.append_assoc]
    rfl

theorem values_addAll_other (vals : List String) (acc : Header) (k k' : String)
    (hk : canonicalMIMEHeaderKey k = k) (hne : k' ≠ k) :
    Header.values (vals.foldl (fun a v => Header.add a k v) acc) k' =
      Header.values acc k' := by
  induction vals generalizing acc with
  | nil => rfl
  | cons v vs ih =>
    rw [List.foldl_cons, ih (Header.add acc k v), values_add_other acc k v k' hk hne]

theorem valuesOf_eq_of_mem (h : Header) (k : String) (vals : List String)
    (hnd : headerKeysNodup h) (hmem : (k, vals) ∈ h) : valuesOf h k = vals := by
  induction h with
  | nil => simp at hmem
  | cons p t ih =>
    unfold headerKeysNodup at hnd
    simp only [List.map_cons, List.nodup_cons] at hnd
    rcases List.mem_cons.mp hmem with hmem | hmem
    · subst hmem; simp [valuesOf]
    · have hp : p.1 ≠ k := by
        intro hcontra
        exact hnd.1 (hcontra ▸ List.mem_map.mpr ⟨(k, vals), hmem, rfl⟩)
      simp [valuesOf, hp, ih hnd.2 hmem]

theorem valuesOf_eq_nil_of_notmem (h : Header) (k : String)
    (hk : k ∉ h.map Prod.fst) : valuesOf h k = [] := by
  induction h with
  | nil => rfl
  | cons p t ih =>
    simp only [List.map_cons, List.mem_cons] at hk
    push_neg at hk
    simp [valuesOf, Ne.symm hk.1, ih hk.2]

theorem values_copyAux_notmem (skip : String × List String → Bool) (src acc : Header)
    (k : String) (hc : headerKeysCanonical src) (hk : k ∉ src.map Prod.fst) :
    Header.values (copyHeadersAux skip acc src) k = Header.values acc k := by
  induction src generalizing acc with
  | nil => rfl
  | cons p t ih =>
    simp only [List.map_cons, List.mem_cons] at hk
    push_neg at hk
    have hct : headerKeysCanonical t := by
      intro a ha; exact hc a (by simp [ha])
    have hcp : canonicalMIMEHeaderKey p.1 = p.1 := hc p.1 (by simp)
    unfold copyHeadersAux
    rw [ih _ hct hk.2]
    by_cases hs : skip p = true
    · rw [if_pos hs]
    · rw [if_neg hs]
      exact values_addAll_other p.2 acc p.1 k hcp hk.1

theorem values_copyAux_mem (skip : String × List String → Bool) (src acc : Header)
    (k : String) (vals : List String) (hc : headerKeysCanonical src)
    (hnd : headerKeysNodup src) (hmem : (k, vals) ∈ src)
    (hskip : skip (k, vals) = false) :
    Header.values (copyHeadersAux skip acc src) k = Header.values acc k ++ vals := by
  induction src generalizing acc with
  | nil => simp at hmem
  | cons p t ih =>
    have hct : headerKeysCanonical t := by
      intro a ha; exact hc a (by simp [ha])
    unfold headerKeysNodup at hnd
    simp only [List.map_cons, List.nodup_cons] at hnd
    rcases List.mem_cons.mp hmem with hm | hm
    · subst hm
      have hkt : k ∉ t.map Prod.fst := hnd.1
      unfold copyHeadersAux
      rw [values_copyAux_notmem skip t _ k hct hkt]
      have hck : canonicalMIMEHeaderKey k = k := hc k (by simp)
      rw [if_neg (by simp [hskip])]
      exact values_addAll_self vals acc k hck
    · have hp : p.1 ≠ k := by
        intro hcontra
        exact hnd.1 (hcontra ▸ List.mem_map.mpr ⟨(k, vals), hm, rfl⟩)
      have hcp : canonicalMIMEHeaderKey p.1 = p.1 := hc p.1 (by simp)
      unfold copyHeadersAux
      rw [ih _ hct hnd.2 hm]
      by_cases hs : skip p = true
      · rw [if_pos hs]
      · rw [if_neg hs, values_addAll_other p.2 acc p.1 k hcp (Ne.symm hp)]

theorem values_copyAux_skipentry (skip : String × List String → Bool) (src acc : Header)
    (k : String) (vals : List String) (hc : headerKeysCanonical src)
    (hnd : headerKeysNodup src) (hmem : (k, vals) ∈ src)
    (hskip : skip (k, vals) = true) :
    Header.values (copyHeadersAux skip acc src) k = Header.values acc k := by
  induction src generalizing acc with
  | nil => simp at hmem
  | cons p t ih =>
    have hct : headerKeysCanonical t := by
      intro a ha; exact hc a (by simp [ha])
    unfold headerKeysNodup at hnd
    simp only [List.map_cons, List.nodup_cons] at hnd
    rcases List.mem_cons.mp hmem with hm | hm
    · subst hm
      have hkt : k ∉ t.map Prod.fst := hnd.1
      unfold copyHeadersAux
      rw [values_copyAux_notmem skip t _ k hct hkt]
      rw [if_pos hskip]
    · have hp : p.1 ≠ k := by
        intro hcontra
        exact hnd.1 (hcontra ▸ List.mem_map.mpr ⟨(k, vals), hm, rfl⟩)
      have hcp : canonicalMIMEHeaderKey p.1 = p.1 := hc p.1 (by simp)
      unfold copyHeadersAux
      rw [ih _ hct hnd.2 hm]
      by_cases hs : skip p = true
      · rw [if_pos hs]
      · rw [if_neg hs, values_addAll_other p.2 acc p.1 k hcp (Ne.symm hp)]

theorem parsedWF_upsert (f : List String → List String) (h : Header) (k : String)
    (hWF : parsedHeaderWF h) (hk : canonicalMIMEHeaderKey k = k) :
    parsedHeaderWF (upsertEntry f h k) :=
  ⟨keysCanonical_upsert f h k hWF.1 hk, nodup_upsert f h k hWF.2⟩

theorem parsedWF_add (h : Header) (k v : String) (hWF : parsedHeaderWF h)
    (hk : canonicalMIMEHeaderKey k = k) : parsedHeaderWF (Header.add h k v) := by
  unfold Header.add
  rw [hk]
  exact parsedWF_upsert _ h k hWF hk

theorem parsedWF_set (h : Header) (k v : String) (hWF : parsedHeaderWF h)
    (hk : canonicalMIMEHeaderKey k = k) : parsedHeaderWF (Header.set h k v) := by
  unfold Header.set
  rw [hk]
  exact parsedWF_upsert _ h k hWF hk

theorem parsedWF_addAll (vals : List String) (acc : Header) (k : String)
    (hWF : parsedHeaderWF acc) (hk : canonicalMIMEHeaderKey k = k) :
    parsedHeaderWF (vals.foldl (fun a v => Header.add a k v) acc) := by
  induction vals generalizing acc with
  | nil => exact hWF
  | cons v vs ih => exact ih (Header.add acc k v) (parsedWF_add acc k v hWF hk)

theorem parsedWF_copyAux (skip : String × List String → Bool) (src acc : Header)
    (hc : headerKeysCanonical src) (hWF : parsedHeaderWF acc) :
    parsedHeaderWF (copyHeadersAux skip acc src) := by
  induction src generalizing acc with
  | nil => exact hWF
  | cons p t ih =>
    have hct : headerKeysCanonical t := by
      intro a ha; exact hc a (by simp [ha])
    have hcp : canonicalMIMEHeaderKey p.1 = p.1 := hc p.1 (by simp)
    unfold copyHeadersAux
    by_cases hs : skip p = true
    · rw [if_pos hs]; exact ih _ hct hWF
    · rw [if_neg hs]; exact ih _ hct (parsedWF_addAll p.2 acc p.1 hWF hcp)

theorem parsedWF_nil : parsedHeaderWF ([] : Header) := by
  constructor
  · intro a ha; simp at ha
  · simp [headerKeysNodup]

theorem parsedWF_copyClient (req : Header) (hc : headerKeysCanonical req) :
    parsedHeaderWF (copyClientHeaders req) :=
  parsedWF_copyAux asyncSkip req [] hc parsedWF_nil

theorem parsedWF_buildAsync (req : Header) (apiKey : String)
    (hc : headerKeysCanonical req) : parsedHeaderWF (buildAsyncHeaders req apiKey) := by
  unfold buildAsyncHeaders
  have hbase := parsedWF_copyClient req hc
  by_cases hget : Header.get (copyClientHeaders req) "Content-Type" == ""
  all_goals by_cases hkey : apiKey == ""
  all_goals simp only [hget, hkey, if_pos, if_neg, Bool.false_eq_true, if_false, if_true]
  · exact parsedWF_set _ _ _ hbase canon_contentType
  · exact parsedWF_set _ _ _ (parsedWF_set _ _ _ hbase canon_contentType) canon_authorization
  · exact hbase
  · exact parsedWF_set _ _ _ hbase canon_authorization

theorem values_copyClient (req : Header) (k : String) (hWF : parsedHeaderWF req)
    (hhost : toLowerStr k ≠ "host") (hhop : isHopByHop k = false) :
    Header.values (copyClientHeaders req) k = Header.values req k := by
  by_cases hk : k ∈ req.map Prod.fst
  · obtain ⟨⟨k1, vals⟩, hpmem, hpk⟩ := List.mem_map.mp hk
    simp only at hpk
    rw [hpk] at hpmem
    have hv : Header.values req k = vals := valuesOf_eq_of_mem req k vals hWF.2 hpmem
    rcases vals with _ | ⟨v, vs⟩
    · have hskip : asyncSkip (k, []) = true := by simp [asyncSkip]
      unfold copyClientHeaders
      rw [values_copyAux_skipentry asyncSkip req [] k [] hWF.1 hWF.2 hpmem hskip, hv]
      rfl
    · have hskip : asyncSkip (k, v :: vs) = false := by
        simp [asyncSkip, hhop, hhost]
      unfold copyClientHeaders
      rw [values_copyAux_mem asyncSkip req [] k (v :: vs) hWF.1 hWF.2 hpmem hskip, hv]
      rfl
  · unfold copyClientHeaders
    rw [values_copyAux_notmem asyncSkip req [] k hWF.1 hk]
    unfold Header.values
    rw [valuesOf_eq_nil_of_notmem req k hk]
    rfl

theorem get_copyClient_contentType (req : Header) (hWF : parsedHeaderWF req) :
    Header.get (copyClientHeaders req) "Content-Type" = Header.get req "Content-Type" := by
  have h := values_copyClient req "Content-Type" hWF (by decide) (by decide)
  unfold Header.values at h
  unfold Header.get
  rw [canon_contentType, h]

theorem values_workerBuild (jh : Header) (k : String) (hWF : parsedHeaderWF jh) :
    Header.values (workerBuildHeaders jh) k = Header.values jh k := by
  by_cases hk : k ∈ jh.map Prod.fst
  · obtain ⟨⟨k1, vals⟩, hpmem, hpk⟩ := List.mem_map.mp hk
    simp only at hpk
    rw [hpk] at hpmem
    have hv : Header.values jh k = vals := valuesOf_eq_of_mem jh k vals hWF.2 hpmem
    unfold workerBuildHeaders
    rw [values_copyAux_mem _ jh [] k vals hWF.1 hWF.2 hpmem rfl, hv]
    rfl
  · unfold workerBuildHeaders
    rw [values_copyAux_notmem _ jh [] k hWF.1 hk]
    unfold Header.values
    rw [valuesOf_eq_nil_of_notmem jh k hk]
    rfl

theorem buildAsync_values_preserved (req : Header) (apiKey k : String) (vals : List String)
    (hWF : parsedHeaderWF req) (hmem : (k, vals) ∈ req)
    (hhost : toLowerStr k ≠ "host") (hhop : isHopByHop k = false)
    (hauth : apiKey ≠ "" → k ≠ "Authorization")
    (hct : k = "Content-Type" → Header.get req "Content-Type" ≠ "") :
    Header.values (buildAsyncHeaders req apiKey) k = vals := by
  have hbase : Header.values (copyClientHeaders req) k = vals := by
    rw [values_copyClient req k hWF hhost hhop]
    exact valuesOf_eq_of_mem req k vals hWF.2 hmem
  have hb2 : ∀ ct : String,
      Header.values
        (if (Header.get (copyClientHeaders req) "Content-Type" == "") = true then
          Header.set (copyClientHeaders req) "Content-Type" ct
        else copyClientHeaders req) k = vals := by
    intro ct
    by_cases hget : (Header.get (copyClientHeaders req) "Content-Type" == "") = true
    · have hkCT : k ≠ "Content-Type" := by
        intro hkeq
        have hgr : Header.get req "Content-Type" ≠ "" := hct hkeq
        rw [get_copyClient_contentType req hWF] at hget
        exact hgr (by simpa using hget)
      rw [if_pos hget, values_set_other _ _ _ _ canon_contentType hkCT]
      exact hbase
    · rw [if_neg hget]
      exact hbase
  simp only [buildAsyncHeaders]
  by_cases hkey : (apiKey == "") = true
  · rw [if_pos hkey]
    exact hb2 _
  · rw [if_neg hkey]
    have hkA : k ≠ "Authorization" := hauth (by simpa using hkey)
    rw [values_set_other _ _ _ _ canon_authorization hkA]
    exact hb2 _

theorem buildAsync_authorization_set (req : Header) (apiKey : String)
    (hkey : apiKey ≠ "") :
    Header.values (buildAsyncHeaders req apiKey) "Authorization" = [apiKey] := by
  simp only [buildAsyncHeaders]
  rw [if_neg (by simpa using hkey)]
  exact values_set_self _ _ _ canon_authorization

theorem buildAsync_contentType_default (req : Header) (apiKey : String)
    (hWF : parsedHeaderWF req) (hget : Header.get req "Content-Type" = "") :
    Header.values (buildAsyncHeaders req apiKey) "Content-Type" =
      ["application/x-protobuf"] := by
  have hgb : (Header.get (copyClientHeaders req) "Content-Type" == "") = true := by
    rw [get_copyClient_contentType req hWF]
    simp [hget]
  have hset : ∀ b : Header,
      Header.values (Header.set b "Content-Type"
        (if (Header.get req "Content-Type" == "") = true then "application/x-protobuf"
         else Header.get req "Content-Type")) "Content-Type" = ["application/x-protobuf"] := by
    intro b
    rw [if_pos (by simp [hget]), values_set_self _ _ _ canon_contentType]
  simp only [buildAsyncHeaders]
  by_cases hkey : (apiKey == "") = true
  · rw [if_pos hkey, if_pos hgb]
    exact hset _
  · rw [if_neg hkey, values_set_other _ _ _ _ canon_authorization (by decide), if_pos hgb]
    exact hset _

theorem buildAsync_auth_passthrough (req : Header) (hWF : parsedHeaderWF req) :
    Header.values (buildAsyncHeaders req "") "Authorization" =
      Header.values req "Authorization" := by
  have hbase : Header.values (copyClientHeaders req) "Authorization" =
      Header.values req "Authorization" :=
    values_copyClient req "Authorization" hWF (by decide) (by decide)
  simp only [buildAsyncHeaders]
  rw [if_pos (by decide)]
  by_cases hget : (Header.get (copyClientHeaders req) "Content-Type" == "") = true
  · rw [if_pos hget, values_set_other _ _ _ _ canon_contentType (by decide)]
    exact hbase
  · rw [if_neg hget]
    exact hbase

theorem runSteps_preserve {σ L : Type} (step : σ → L → Option σ) (P : σ → Prop)
    (hstep : ∀ s l s', P s → step s l = some s' → P s') :
    ∀ ls s s', P s → runSteps step s ls = some s' → P s' := by
  intro ls
  induction ls with
  | nil =>
    intro s s' hs hrun
    simp only [runSteps, Option.some.injEq] at hrun
    exact hrun ▸ hs
  | cons l t ih =>
    intro s s' hs hrun
    simp only [runSteps] at hrun
    rcases hmatch : step s l with _ | s2
    · rw [hmatch] at hrun; exact absurd hrun (by simp)
    · rw [hmatch] at hrun
      exact ih s2 s' (hstep s l s2 hs hmatch) hrun

theorem runSteps_labels {σ L : Type} (step : σ → L → Option σ) (P : σ → Prop)
    (bad : L → Bool)
    (hstep : ∀ s l s', P s → step s l = some s' → P s' ∧ bad l = false) :
    ∀ ls s s', P s → runSteps step s ls = some s' → ∀ l ∈ ls, bad l = false := by
  intro ls
  induction ls with
  | nil => intro s s' _ _ l hl; simp at hl
  | cons l0 t ih =>
    intro s s' hs hrun l hl
    simp only [runSteps] at hrun
    rcases hmatch : step s l0 with _ | s2
    · rw [hmatch] at hrun; exact absurd hrun (by simp)
    · rw [hmatch] at hrun
      rcases List.mem_cons.mp hl with hl | hl
      · exact hl ▸ (hstep s l0 s2 hs hmatch).2
      · exact ih s2 s' (hstep s l0 s2 hs hmatch).1 hrun l hl

theorem jobCounterDelta_sum (o : JobOutcome) :
    (jobCounterDelta o).1 + (jobCounterDelta o).2 = 1 := by
  cases o with
  | createError => rfl
  | transportError => rfl
  | response st =>
    simp only [jobCounterDelta]
    split <;> rfl

theorem poolStep_inv (cfg : PoolCfg) (s : PoolState) (l : PoolLabel) (s' : PoolState)
    (hinv : poolInv cfg s) (hstep : poolStep cfg s l = some s') : poolInv cfg s' := by
  obtain ⟨h1, h2⟩ := hinv
  cases l with
  | submit =>
    simp only [poolStep] at hstep
    split at hstep
    · exact absurd hstep (by simp)
    · simp only [Option.some.injEq] at hstep
      subst hstep
      unfold poolSubmitJob
      split
      next hfull => exact ⟨h1, h2⟩
      split
      next hclosed => exact ⟨h1, h2⟩
      next hfull hclosed =>
        refine ⟨?_, ?_⟩ <;> simp <;> omega
  | startJob o =>
    simp only [poolStep] at hstep
    split at hstep
    · exact absurd hstep (by simp)
    · split at hstep
      next hg =>
        simp only [Option.some.injEq] at hstep
        subst hstep
        refine ⟨?_, ?_⟩ <;> simp <;> omega
      · exact absurd hstep (by simp)
  | finishJob o =>
    simp only [poolStep] at hstep
    split at hstep
    · exact absurd hstep (by simp)
    · split at hstep
      next hmem =>
        have hlen : (s.inflight.erase o).length = s.inflight.length - 1 :=
          List.length_erase_of_mem hmem
        have hpos : 0 < s.inflight.length := List.length_pos_of_mem hmem
        simp only [Option.some.injEq] at hstep
        subst hstep
        refine ⟨?_, ?_⟩ <;> simp [hlen] <;> omega
      · exact absurd hstep (by simp)
  | workerExit =>
    simp only [poolStep] at hstep
    split at hstep
    · exact absurd hstep (by simp)
    · split at hstep
      · simp only [Option.some.injEq] at hstep
        subst hstep
        exact ⟨h1, h2⟩
      · exact absurd hstep (by simp)
  | stopCall =>
    simp only [poolStep] at hstep
    split at hstep
    · exact absurd hstep (by simp)
    · split at hstep
      · exact absurd hstep (by simp)
      · simp only [Option.some.injEq] at hstep
        subst hstep
        exact ⟨h1, h2⟩
  | stopComplete =>
    simp only [poolStep] at hstep
    split at hstep
    · exact absurd hstep (by simp)
    · split at hstep
      · simp only [Option.some.injEq] at hstep
        subst hstep
        exact ⟨h1, h2⟩
      · exact absurd hstep (by simp)
  | stopTimeout =>
    simp only [poolStep] at hstep
    split at hstep
    · exact absurd hstep (by simp)
    · split at hstep
      · simp only [Option.some.injEq] at hstep
        subst hstep
        exact ⟨h1, h2⟩
      · exact absurd hstep (by simp)

theorem poolRun_inv (cfg : PoolCfg) (ls : List PoolLabel) (s : PoolState)
    (hrun : poolRun cfg poolInitState ls = some s) : poolInv cfg s := by
  refine runSteps_preserve (poolStep cfg) (poolInv cfg) ?_ ls poolInitState s ?_ hrun
  · intro a l a' ha hst
    exact poolStep_inv cfg a l a' ha hst
  · exact ⟨rfl, by simp [poolInitState]⟩

theorem poolStep_counterInv (cfg : PoolCfg) (s : PoolState) (l : PoolLabel)
    (s' : PoolState) (hinv : poolCounterInv s) (hstep : poolStep cfg s l = some s') :
    poolCounterInv s' := by
  cases l with
  | finishJob o =>
    simp only [poolStep] at hstep
    split at hstep
    · exact absurd hstep (by simp)
    · split at hstep
      next hmem =>
        have hd := jobCounterDelta_sum o
        simp only [Option.some.injEq] at hstep
        subst hstep
        unfold poolCounterInv at *
        simp
        omega
      · exact absurd hstep (by simp)
  | submit =>
    simp only [poolStep] at hstep
    split at hstep
    · exact absurd hstep (by simp)
    · simp only [Option.some.injEq] at hstep
      subst hstep
      unfold poolSubmitJob
      split
      · exact hinv
      split
      · exact hinv
      · exact hinv
  | startJob o =>
    simp only [poolStep] at hstep
    split at hstep
    · exact absurd hstep (by simp)
    · split at hstep
      · simp only [Option.some.injEq] at hstep
        subst hstep
        exact hinv
      · exact absurd hstep (by simp)
  | workerExit =>
    simp only [poolStep] at hstep
    split at hstep
    · exact absurd hstep (by simp)
    · split at hstep
      · simp only [Option.some.injEq] at hstep
        subst hstep
        exact hinv
      · exact absurd hstep (by simp)
  | stopCall =>
    simp only [poolStep] at hstep
    split at hstep
    · exact absurd hstep (by simp)
    · split at hstep
      · exact absurd hstep (by simp)
      · simp only [Option.some.injEq] at hstep
        subst hstep
        exact hinv
  | stopComplete =>
    simp only [poolStep] at hstep
    split at hstep
    · exact absurd hstep (by simp)
    · split at hstep
      · simp only [Option.some.injEq] at hstep
        subst hstep
        exact hinv
      · exact absurd hstep (by simp)
  | stopTimeout =>
    simp only [poolStep] at hstep
    split at hstep
    · exact absurd hstep (by simp)
    · split at hstep
      · simp only [Option.some.injEq] at hstep
        subst hstep
        exact hinv
      · exact absurd hstep (by simp)

theorem poolRun_counterInv (cfg : PoolCfg) (ls : List PoolLabel) (s : PoolState)
    (hrun : poolRun cfg poolInitState ls = some s) : poolCounterInv s := by
  refine runSteps_preserve (poolStep cfg) poolCounterInv ?_ ls poolInitState s rfl hrun
  intro a l a' ha hst
  exact poolStep_counterInv cfg a l a' ha hst

theorem poolStep_dead (cfg : PoolCfg) (s : PoolState) (l : PoolLabel) (s' : PoolState)
    (hdead : poolDead cfg s) (hstep : poolStep cfg s l = some s') :
    poolDead cfg s' ∧ poolIsPostInit l = false := by
  obtain ⟨hc, hr, he, hi⟩ := hdead
  cases l with
  | submit =>
    simp only [poolStep] at hstep
    split at hstep
    · exact absurd hstep (by simp)
    · simp only [Option.some.injEq] at hstep
      subst hstep
      unfold poolSubmitJob
      by_cases hfull : s.permits = cfg.workerCount + cfg.jobQueueSize
      · rw [if_pos hfull]
        exact ⟨⟨hc, hr, he, hi⟩, rfl⟩
      · rw [if_neg hfull, if_pos hc]
        exact ⟨⟨hc, hr, he, hi⟩, rfl⟩
  | startJob o => simp [poolStep, hi, he] at hstep
  | finishJob o => simp [poolStep, hi] at hstep
  | workerExit => simp [poolStep, hi, he] at hstep
  | stopCall => simp [poolStep, hc] at hstep
  | stopComplete => simp [poolStep, hr] at hstep
  | stopTimeout => simp [poolStep, hr] at hstep

theorem poolStep_stopInv (cfg : PoolCfg) (s : PoolState) (l : PoolLabel) (s' : PoolState)
    (hinv : poolStopInv cfg s) (hstep : poolStep cfg s l = some s') :
    poolStopInv cfg s' := by
  by_cases hsc : s.stopCompleted = true
  · have hdead := (poolStep_dead cfg s l s' (hinv hsc) hstep).1
    exact fun _ => hdead
  · cases l with
    | stopComplete =>
      simp only [poolStep] at hstep
      split at hstep
      · exact absurd hstep (by simp)
      · split at hstep
        next hg =>
          simp only [Option.some.injEq] at hstep
          subst hstep
          intro _
          exact ⟨by simpa using hg.1, rfl, hg.2.2.1, hg.2.2.2⟩
        · exact absurd hstep (by simp)
    | submit =>
      simp only [poolStep] at hstep
      split at hstep
      · exact absurd hstep (by simp)
      · simp only [Option.some.injEq] at hstep
        subst hstep
        unfold poolSubmitJob
        split
        · exact hinv
        split
        · intro h; exact absurd (hinv h) (fun _ => hsc h)
        · intro h; exact absurd (hinv h) (fun _ => hsc h)
    | startJob o =>
      simp only [poolStep] at hstep
      split at hstep
      · exact absurd hstep (by simp)
      · split at hstep
        · simp only [Option.some.injEq] at hstep
          subst hstep
          intro h; exact absurd h hsc
        · exact absurd hstep (by simp)
    | finishJob o =>
      simp only [poolStep] at hstep
      split at hstep
      · exact absurd hstep (by simp)
      · split at hstep
        · simp only [Option.some.injEq] at hstep
          subst hstep
          intro h; exact absurd h hsc
        · exact absurd hstep (by simp)
    | workerExit =>
      simp only [poolStep] at hstep
      split at hstep
      · exact absurd hstep (by simp)
      · split at hstep
        · simp only [Option.some.injEq] at hstep
          subst hstep
          intro h; exact absurd h hsc
        · exact absurd hstep (by simp)
    | stopCall =>
      simp only [poolStep] at hstep
      split at hstep
      · exact absurd hstep (by simp)
      · split at hstep
        · exact absurd hstep (by simp)
        · simp only [Option.some.injEq] at hstep
          subst hstep
          intro h; exact absurd h hsc
    | stopTimeout =>
      simp only [poolStep] at hstep
      split at hstep
      · exact absurd hstep (by simp)
      · split at hstep
        · simp only [Option.some.injEq] at hstep
          subst hstep
          intro h; exact absurd h hsc
        · exact absurd hstep (by simp)

theorem semStep_counterInv (cfg : SemCfg) (s : SemState) (l : SemLabel) (s' : SemState)
    (hinv : semCounterInv s) (hstep : semStep cfg s l = some s') : semCounterInv s' := by
  cases l with
  | submit =>
    simp only [semStep, Option.some.injEq] at hstep
    subst hstep
    unfold semSubmit
    split
    · exact hinv
    · exact hinv
  | acquire o =>
    simp only [semStep] at hstep
    split at hstep
    · simp only [Option.some.injEq] at hstep
      subst hstep
      exact hinv
    · exact absurd hstep (by simp)
  | finish o =>
    simp only [semStep] at hstep
    split at hstep
    · have hd := jobCounterDelta_sum o
      simp only [Option.some.injEq] at hstep
      subst hstep
      unfold semCounterInv at *
      simp
      omega
    · exact absurd hstep (by simp)
  | stopCall =>
    simp only [semStep] at hstep
    split at hstep
    · exact absurd hstep (by simp)
    · simp only [Option.some.injEq] at hstep
      subst hstep
      exact hinv
  | stopComplete =>
    simp only [semStep] at hstep
    split at hstep
    · simp only [Option.some.injEq] at hstep
      subst hstep
      exact hinv
    · exact absurd hstep (by simp)
  | stopTimeout =>
    simp only [semStep] at hstep
    split at hstep
    · simp only [Option.some.injEq] at hstep
      subst hstep
      exact hinv
    · exact absurd hstep (by simp)

theorem semRun_counterInv (cfg : SemCfg) (ls : List SemLabel) (s : SemState)
    (hrun : semRun cfg semInitState ls = some s) : semCounterInv s := by
  refine runSteps_preserve (semStep cfg) semCounterInv ?_ ls semInitState s rfl hrun
  intro a l a' ha hst
  exact semStep_counterInv cfg a l a' ha hst

theorem semStep_dead (cfg : SemCfg) (s : SemState) (l : SemLabel) (s' : SemState)
    (hdead : semDead s) (hstep : semStep cfg s l = some s') :
    semDead s' ∧ semIsPostInit l = false := by
  obtain ⟨hs, hr, hp, ha⟩ := hdead
  cases l with
  | submit =>
    simp only [semStep, Option.some.injEq] at hstep
    subst hstep
    unfold semSubmit
    rw [if_pos hs]
    exact ⟨⟨hs, hr, hp, ha⟩, rfl⟩
  | acquire o => simp [semStep, hp] at hstep
  | finish o => simp [semStep, ha] at hstep
  | stopCall => simp [semStep, hs] at hstep
  | stopComplete => simp [semStep, hr] at hstep
  | stopTimeout => simp [semStep, hr] at hstep

theorem semStep_stopInv (cfg : SemCfg) (s : SemState) (l : SemLabel) (s' : SemState)
    (hinv : semStopInv s) (hstep : semStep cfg s l = some s') : semStopInv s' := by
  by_cases hsc : s.stopCompleted = true
  · exact fun _ => (semStep_dead cfg s l s' (hinv hsc) hstep).1
  · intro h'
    cases l with
    | stopComplete =>
      simp only [semStep] at hstep
      split at hstep
      next hg =>
        simp only [Option.some.injEq] at hstep
        subst hstep
        exact ⟨hg.1, rfl, hg.2.2.1, hg.2.2.2⟩
      · exact absurd hstep (by simp)
    | submit =>
      simp only [semStep, Option.some.injEq] at hstep
      subst hstep
      unfold semSubmit at h'
      split at h' <;> exact absurd h' hsc
    | acquire o =>
      simp only [semStep] at hstep
      split at hstep
      all_goals first
        | (simp only [Option.some.injEq] at hstep; subst hstep; exact absurd h' hsc)
        | exact absurd hstep (by simp)
    | finish o =>
      simp only [semStep] at hstep
      split at hstep
      all_goals first
        | (simp only [Option.some.injEq] at hstep; subst hstep; exact absurd h' hsc)
        | exact absurd hstep (by simp)
    | stopCall =>
      simp only [semStep] at hstep
      split at hstep
      all_goals first
        | (simp only [Option.some.injEq] at hstep; subst hstep; exact absurd h' hsc)
        | exact absurd hstep (by simp)
    | stopTimeout =>
      simp only [semStep] at hstep
      split at hstep
      all_goals first
        | (simp only [Option.some.injEq] at hstep; subst hstep; exact absurd h' hsc)
        | exact absurd hstep (by simp)

theorem hybStep_dead (cfg : HybCfg) (s : HybState) (l : HybLabel) (s' : HybState)
    (hdead : hybDead cfg s) (hstep : hybStep cfg s l = some s') :
    hybDead cfg s' ∧ hybIsPostInit l = false := by
  obtain ⟨hs, hr, he, hh, ha⟩ := hdead
  cases l with
  | submit =>
    simp only [hybStep, Option.some.injEq] at hstep
    subst hstep
    unfold hybSubmit
    rw [if_pos hs]
    exact ⟨⟨hs, hr, he, hh, ha⟩, rfl⟩
  | dispatch => simp [hybStep, hh, he] at hstep
  | acquireSpawn o => simp [hybStep, hh] at hstep
  | finish o => simp [hybStep, ha] at hstep
  | dispatcherExit => simp [hybStep, hh, he] at hstep
  | stopCall => simp [hybStep, hs] at hstep
  | stopComplete => simp [hybStep, hr] at hstep
  | stopTimeout => simp [hybStep, hr] at hstep

theorem hybStep_stopInv (cfg : HybCfg) (s : HybState) (l : HybLabel) (s' : HybState)
    (hinv : hybStopInv cfg s) (hstep : hybStep cfg s l = some s') : hybStopInv cfg s' := by
  by_cases hsc : s.stopCompleted = true
  · exact fun _ => (hybStep_dead cfg s l s' (hinv hsc) hstep).1
  · intro h'
    cases l with
    | stopComplete =>
      simp only [hybStep] at hstep
      split at hstep
      next hg =>
        simp only [Option.some.injEq] at hstep
        subst hstep
        exact ⟨hg.1, rfl, hg.2.2.1, hg.2.2.2.2, hg.2.2.2.1⟩
      · exact absurd hstep (by simp)
    | submit =>
      simp only [hybStep, Option.some.injEq] at hstep
      subst hstep
      unfold hybSubmit at h'
      split at h'
      · exact absurd h' hsc
      · split at h' <;> exact absurd h' hsc
    | dispatch =>
      simp only [hybStep] at hstep
      split at hstep
      all_goals first
        | (simp only [Option.some.injEq] at hstep; subst hstep; exact absurd h' hsc)
        | exact absurd hstep (by simp)
    | acquireSpawn o =>
      simp only [hybStep] at hstep
      split at hstep
      all_goals first
        | (simp only [Option.some.injEq] at hstep; subst hstep; exact absurd h' hsc)
        | exact absurd hstep (by simp)
    | finish o =>
      simp only [hybStep] at hstep
      split at hstep
      all_goals first
        | (simp only [Option.some.injEq] at hstep; subst hstep; exact absurd h' hsc)
        | exact absurd hstep (by simp)
    | dispatcherExit =>
      simp only [hybStep] at hstep
      split at hstep
      all_goals first
        | (simp only [Option.some.injEq] at hstep; subst hstep; exact absurd h' hsc)
        | exact absurd hstep (by simp)
    | stopCall =>
      simp only [hybStep] at hstep
      split at hstep
      all_goals first
        | (simp only [Option.some.injEq] at hstep; subst hstep; exact absurd h' hsc)
        | exact absurd hstep (by simp)
    | stopTimeout =>
      simp only [hybStep] at hstep
      split at hstep
      all_goals first
        | (simp only [Option.some.injEq] at hstep; subst hstep; exact absurd h' hsc)
        | exact absurd hstep (by simp)

/-- Claim C1: for the pooled forwarder with worker count `W` and queue
capacity `Q`, in every reachable state the number of outstanding tasks
(queued plus in-flight) never exceeds `W + Q`, the permits channel holds
exactly one token per outstanding task, and `SubmitJob` returns the
rejection error iff that bound is reached at the moment of the submit. -/
theorem claim_C1 (cfg : PoolCfg) (ls : List PoolLabel) (s : PoolState)
    (hrun : poolRun cfg poolInitState ls = some s) :
    s.queued + s.inflight.length ≤ cfg.workerCount + cfg.jobQueueSize ∧
    s.permits = s.queued + s.inflight.length ∧
    ((poolSubmitJob cfg s).2 = SubmitOutcome.rejected ↔
      s.queued + s.inflight.length = cfg.workerCount + cfg.jobQueueSize) := by
  obtain ⟨h1, h2⟩ := poolRun_inv cfg ls s hrun
  refine ⟨h1 ▸ h2, h1, ?_, ?_⟩
  · intro hrej
    unfold poolSubmitJob at hrej
    by_cases hfull : s.permits = cfg.workerCount + cfg.jobQueueSize
    · omega
    · rw [if_neg hfull] at hrej
      split at hrej <;> simp at hrej
  · intro heq
    unfold poolSubmitJob
    rw [if_pos (by omega)]

theorem claim_C1_witness :
    poolRun ⟨1, 1⟩ poolInitState [PoolLabel.submit, PoolLabel.submit] =
      some ⟨2, [], 2, 0, false, false, false, false, 0, 0, 0⟩ ∧
    (2 + (0 : Nat) ≤ 1 + 1 ∧ (2 : Nat) = 2 + 0 ∧
      ((poolSubmitJob ⟨1, 1⟩ ⟨2, [], 2, 0, false, false, false, false, 0, 0, 0⟩).2 =
          SubmitOutcome.rejected ↔ 2 + (0 : Nat) = 1 + 1)) :=
  ⟨by decide,
   claim_C1 ⟨1, 1⟩ [PoolLabel.submit, PoolLabel.submit]
     ⟨2, [], 2, 0, false, false, false, false, 0, 0, 0⟩ (by decide)⟩

/-- Claim C3: on the async ingress path the reply is exactly 400 when the
body cannot be read, 503 when the submit errors, 202 when it succeeds, and
the status is a function of (body readability, submit result) only — in
particular it never depends on the upstream response, which is not even an
input of the handler. -/
theorem claim_C3 :
    (∀ (reqHeaders : Header) (apiKey targetURL path : String) (submitErr : Bool),
      (handleAsync none reqHeaders apiKey targetURL path submitErr).status = 400) ∧
    (∀ (b : List Nat) (reqHeaders : Header) (apiKey targetURL path : String),
      (handleAsync (some b) reqHeaders apiKey targetURL path true).status = 503 ∧
      (handleAsync (some b) reqHeaders apiKey targetURL path false).status = 202) ∧
    (∀ (b1 b2 : List Nat) (h1 h2 : Header) (k1 k2 u1 u2 p1 p2 : String) (e : Bool),
      (handleAsync (some b1) h1 k1 u1 p1 e).status =
        (handleAsync (some b2) h2 k2 u2 p2 e).status) := by
  refine ⟨fun _ _ _ _ _ => rfl, fun _ _ _ _ _ => ⟨rfl, rfl⟩, ?_⟩
  intro b1 b2 h1 h2 k1 k2 u1 u2 p1 p2 e
  cases e <;> rfl

/-- Claim C4 (supporting evidence for the code bug): after `Stop`, the
hybrid forwarder's submit returns its terminal error and the semaphore
forwarder's submit returns success while dropping the task, but the pooled
`SubmitJob` — which does not check the stopped state — reaches the send on
the closed job queue and panics whenever a permit is available. -/
theorem claim_C4_bug :
    (poolRun ⟨1, 1⟩ poolInitState [PoolLabel.stopCall] =
        some ⟨0, [], 0, 0, true, false, false, false, 0, 0, 0⟩ ∧
      (poolSubmitJob ⟨1, 1⟩ ⟨0, [], 0, 0, true, false, false, false, 0, 0, 0⟩).2 =
        SubmitOutcome.panicked) ∧
    (semRun ⟨1⟩ semInitState [SemLabel.stopCall] =
        some ⟨0, [], true, false, false, 0, 0, 0⟩ ∧
      semSubmit ⟨0, [], true, false, false, 0, 0, 0⟩ =
        (⟨0, [], true, false, false, 0, 0, 0⟩, SemSubmitOutcome.droppedOk)) ∧
    (hybRun ⟨1, 1, 1⟩ hybInitState [HybLabel.stopCall] =
        some ⟨0, 0, [], 0, true, false, false, 0, 0, 0⟩ ∧
      (hybSubmit ⟨1, 1, 1⟩ ⟨0, 0, [], 0, true, false, false, 0, 0, 0⟩).2 =
        HybSubmitOutcome.errStopped) := by
  decide

/-- Claim C5: every terminal task increments exactly one of the two
counters — `jobs_processed_total` iff the status is in `[200, 300)` — in
each of the three sender bodies, and in every reachable pool or semaphore
state `processed + failed` equals the number of tasks that reached a
terminal state. -/
theorem claim_C5 :
    (∀ (job : Job) (o : JobOutcome),
      eventCounters (workerProcessJob job o) = jobCounterDelta o ∧
      eventCounters (semaphoreTaskEvents job o) = jobCounterDelta o ∧
      eventCounters (hybridSendEvents job o) = jobCounterDelta o) ∧
    (∀ o : JobOutcome,
      (jobCounterDelta o).1 + (jobCounterDelta o).2 = 1 ∧
      ((jobCounterDelta o).1 = 1 ↔
        ∃ st, o = JobOutcome.response st ∧ 200 ≤ st ∧ st < 300)) ∧
    (∀ (cfg : PoolCfg) (ls : List PoolLabel) (s : PoolState),
      poolRun cfg poolInitState ls = some s → s.processed + s.failed = s.finished) ∧
    (∀ (cfg : SemCfg) (ls : List SemLabel) (s : SemState),
      semRun cfg semInitState ls = some s → s.processed + s.failed = s.finished) := by
  refine ⟨?_, ?_, ?_, ?_⟩
  · intro job o
    cases o with
    | createError =>
      refine ⟨?_, ?_, ?_⟩ <;>
        simp [eventCounters, workerProcessJob, semaphoreTaskEvents, hybridSendEvents,
          jobCounterDelta, List.count_cons, List.count_nil]
    | transportError =>
      refine ⟨?_, ?_, ?_⟩ <;>
        simp [eventCounters, workerProcessJob, semaphoreTaskEvents, hybridSendEvents,
          jobCounterDelta, List.count_cons, List.count_nil]
    | response st =>
      by_cases hst : st < 200 ∨ 300 ≤ st <;>
        refine ⟨?_, ?_, ?_⟩ <;>
          simp [eventCounters, workerProcessJob, semaphoreTaskEvents, hybridSendEvents,
            jobCounterDelta, classifyEvents, hst, List.count_cons, List.count_nil]
  · intro o
    cases o with
    | createError =>
      refine ⟨rfl, ?_⟩
      simp [jobCounterDelta]
    | transportError =>
      refine ⟨rfl, ?_⟩
      simp [jobCounterDelta]
    | response st =>
      constructor
      · simp only [jobCounterDelta]
        split <;> rfl
      · simp only [jobCounterDelta]
        by_cases hst : st < 200 ∨ 300 ≤ st
        · rw [if_pos hst]
          simp only [JobOutcome.response.injEq]
          constructor
          · intro h; exact absurd h (by simp)
          · rintro ⟨st', hst', h2, h3⟩
            rw [← hst'] at *
            omega
        · rw [if_neg hst]
          constructor
          · intro _
            exact ⟨st, rfl, by omega, by omega⟩
          · intro _; rfl
  · intro cfg ls s hrun
    exact poolRun_counterInv cfg ls s hrun
  · intro cfg ls s hrun
    exact semRun_counterInv cfg ls s hrun

theorem claim_C5_witness :
    poolRun ⟨1, 0⟩ poolInitState
        [PoolLabel.submit, PoolLabel.startJob (JobOutcome.response 200),
         PoolLabel.finishJob (JobOutcome.response 200)] =
      some ⟨0, [], 0, 0, false, false, false, false, 1, 0, 1⟩ ∧
    (1 : Nat) + 0 = 1 :=
  ⟨by decide,
   claim_C5.2.2.1 ⟨1, 0⟩
     [PoolLabel.submit, PoolLabel.startJob (JobOutcome.response 200),
      PoolLabel.finishJob (JobOutcome.response 200)]
     ⟨0, [], 0, 0, false, false, false, false, 1, 0, 1⟩ (by decide)⟩

/-- Claim C2 counterexample: a client `Content-Type` header that is
present with the empty string as its value is replaced by the default
`application/x-protobuf` (the code tests `Header.Get`, which cannot
distinguish an absent header from an empty first value), so its
multi-values are not preserved. -/
theorem claim_C2_counterexample : ¬ claimC2HeadersAsStated := by
  intro h
  have hwf : parsedHeaderWF [("Content-Type", [""])] := by
    constructor
    · intro a ha
      simp at ha
      subst ha
      decide
    · simp [headerKeysNodup]
  have := h [("Content-Type", [""])] "" hwf "Content-Type" [""] (by simp) (by simp)
    (by decide) (by decide) (fun hne => absurd rfl hne)
  exact absurd this (by decide)

/-- Claim C2 (amended): for every POST on the async path, the byte
sequence submitted to the forwarder and later sent upstream equals the
bytes read from the client body; every non-`Host`, non-hop-by-hop client
header is carried to the upstream request with identical multi-values,
except that `Authorization` is overwritten with the configured credential
when it is non-empty, and `Content-Type` is set to
`application/x-protobuf` when it is absent **or its first value is the
empty string**. -/
theorem claim_C2_amended (reqHeaders : Header) (apiKey targetURL path : String)
    (b : List Nat) (submitErr : Bool) (hWF : parsedHeaderWF reqHeaders) :
    ∃ job : Job,
      (handleAsync (some b) reqHeaders apiKey targetURL path submitErr).submitted =
        some job ∧
      job.Body = b ∧
      (∀ o : JobOutcome, o ≠ JobOutcome.createError →
        WorkerEvent.sendPOST job.TargetURL job.Body (workerBuildHeaders job.Headers) ∈
          workerProcessJob job o) ∧
      (∀ k : String, Header.values (workerBuildHeaders job.Headers) k =
        Header.values job.Headers k) ∧
      (∀ (k : String) (vals : List String), (k, vals) ∈ reqHeaders → vals ≠ [] →
        toLowerStr k ≠ "host" → isHopByHop k = false →
        (apiKey ≠ "" → k ≠ "Authorization") →
        (k = "Content-Type" → Header.get reqHeaders "Content-Type" ≠ "") →
        Header.values job.Headers k = vals) ∧
      (apiKey ≠ "" → Header.values job.Headers "Authorization" = [apiKey]) ∧
      (Header.get reqHeaders "Content-Type" = "" →
        Header.values job.Headers "Content-Type" = ["application/x-protobuf"]) := by
  refine ⟨⟨b, targetURL ++ path, buildAsyncHeaders reqHeaders apiKey⟩, ?_, rfl, ?_, ?_, ?_, ?_, ?_⟩
  · cases submitErr <;> rfl
  · intro o ho
    cases o with
    | createError => exact absurd rfl ho
    | transportError => simp [workerProcessJob]
    | response st => simp [workerProcessJob]
  · intro k
    exact values_workerBuild _ k (parsedWF_buildAsync reqHeaders apiKey hWF.1)
  · intro k vals hmem _ hhost hhop hauth hct
    exact buildAsync_values_preserved reqHeaders apiKey k vals hWF hmem hhost hhop hauth hct
  · intro hkey
    exact buildAsync_authorization_set reqHeaders apiKey hkey
  · intro hget
    exact buildAsync_contentType_default reqHeaders apiKey hWF hget

theorem claim_C2_witness :
    parsedHeaderWF [("X-Trace", ["a", "b"]), ("Content-Type", ["text/x"])] ∧
    (∃ job : Job,
      (handleAsync (some [104, 105]) [("X-Trace", ["a", "b"]), ("Content-Type", ["text/x"])]
          "k" "u" "/v1/logs" false).submitted = some job ∧
      job.Body = [104, 105] ∧
      (∀ o : JobOutcome, o ≠ JobOutcome.createError →
        WorkerEvent.sendPOST job.TargetURL job.Body (workerBuildHeaders job.Headers) ∈
          workerProcessJob job o) ∧
      (∀ k : String, Header.values (workerBuildHeaders job.Headers) k =
        Header.values job.Headers k) ∧
      (∀ (k : String) (vals : List String),
        (k, vals) ∈ [("X-Trace", ["a", "b"]), ("Content-Type", ["text/x"])] → vals ≠ [] →
        toLowerStr k ≠ "host" → isHopByHop k = false →
        (("k" : String) ≠ "" → k ≠ "Authorization") →
        (k = "Content-Type" →
          Header.get [("X-Trace", ["a", "b"]), ("Content-Type", ["text/x"])] "Content-Type" ≠ "") →
        Header.values job.Headers k = vals) ∧
      (("k" : String) ≠ "" → Header.values job.Headers "Authorization" = ["k"]) ∧
      (Header.get [("X-Trace", ["a", "b"]), ("Content-Type", ["text/x"])] "Content-Type" = "" →
        Header.values job.Headers "Content-Type" = ["application/x-protobuf"])) := by
  have hwf : parsedHeaderWF [("X-Trace", ["a", "b"]), ("Content-Type", ["text/x"])] := by
    constructor
    · intro a ha
      simp at ha
      rcases ha with rfl | rfl <;> decide
    · simp [headerKeysNodup]
  exact ⟨hwf, claim_C2_amended [("X-Trace", ["a", "b"]), ("Content-Type", ["text/x"])]
    "k" "u" "/v1/logs" [104, 105] false hwf⟩

/-- Claim C6 counterexample: when `Stop` returns by timeout with a job
still queued, a pool worker subsequently takes that job and initiates a
new upstream POST after `Stop` has returned. -/
theorem claim_C6_counterexample : ¬ claimC6AsStated := by
  intro h
  have := h.1 ⟨1, 1⟩ [PoolLabel.submit, PoolLabel.stopCall, PoolLabel.stopTimeout]
    ⟨1, [], 1, 0, true, true, false, false, 0, 0, 0⟩
    (PoolLabel.startJob (JobOutcome.response 200))
    ⟨0, [JobOutcome.response 200], 1, 0, true, true, false, false, 0, 0, 0⟩
    (by decide) (by decide) (by decide)
  exact absurd this (by decide)

/-- Claim C6 (amended): for every forwarder variant, when `stop` has
returned through its completed wait (rather than the timeout), no step of
any later execution initiates a new upstream POST.  (After a timeout
return, pending tasks may still initiate POSTs, as the counterexample
shows.) -/
theorem claim_C6_amended :
    (∀ (cfg : PoolCfg) (ls : List PoolLabel) (s : PoolState),
      poolRun cfg poolInitState ls = some s → s.stopCompleted = true →
      ∀ (ls2 : List PoolLabel) (s2 : PoolState), poolRun cfg s ls2 = some s2 →
        ∀ l ∈ ls2, poolIsPostInit l = false) ∧
    (∀ (cfg : SemCfg) (ls : List SemLabel) (s : SemState),
      semRun cfg semInitState ls = some s → s.stopCompleted = true →
      ∀ (ls2 : List SemLabel) (s2 : SemState), semRun cfg s ls2 = some s2 →
        ∀ l ∈ ls2, semIsPostInit l = false) ∧
    (∀ (cfg : HybCfg) (ls : List HybLabel) (s : HybState),
      hybRun cfg hybInitState ls = some s → s.stopCompleted = true →
      ∀ (ls2 : List HybLabel) (s2 : HybState), hybRun cfg s ls2 = some s2 →
        ∀ l ∈ ls2, hybIsPostInit l = false) := by
  refine ⟨?_, ?_, ?_⟩
  · intro cfg ls s hrun hsc ls2 s2 hrun2 l hl
    have hstopinv : poolStopInv cfg s :=
      runSteps_preserve (poolStep cfg) (poolStopInv cfg)
        (fun a l' a' ha hst => poolStep_stopInv cfg a l' a' ha hst) ls poolInitState s
        (fun h => by simp [poolInitState] at h) hrun
    exact runSteps_labels (poolStep cfg) (poolDead cfg) poolIsPostInit
      (fun a l' a' ha hst => poolStep_dead cfg a l' a' ha hst) ls2 s s2
      (hstopinv hsc) hrun2 l hl
  · intro cfg ls s hrun hsc ls2 s2 hrun2 l hl
    have hstopinv : semStopInv s :=
      runSteps_preserve (semStep cfg) semStopInv
        (fun a l' a' ha hst => semStep_stopInv cfg a l' a' ha hst) ls semInitState s
        (fun h => by simp [semInitState] at h) hrun
    exact runSteps_labels (semStep cfg) semDead semIsPostInit
      (fun a l' a' ha hst => semStep_dead cfg a l' a' ha hst) ls2 s s2
      (hstopinv hsc) hrun2 l hl
  · intro cfg ls s hrun hsc ls2 s2 hrun2 l hl
    have hstopinv : hybStopInv cfg s :=
      runSteps_preserve (hybStep cfg) (hybStopInv cfg)
        (fun a l' a' ha hst => hybStep_stopInv cfg a l' a' ha hst) ls hybInitState s
        (fun h => by simp [hybInitState] at h) hrun
    exact runSteps_labels (hybStep cfg) (hybDead cfg) hybIsPostInit
      (fun a l' a' ha hst => hybStep_dead cfg a l' a' ha hst) ls2 s s2
      (hstopinv hsc) hrun2 l hl

theorem claim_C6_witness :
    (poolRun ⟨1, 1⟩ poolInitState
        [PoolLabel.stopCall, PoolLabel.workerExit, PoolLabel.stopComplete] =
          some ⟨0, [], 0, 1, true, true, true, false, 0, 0, 0⟩ ∧
      poolRun ⟨1, 1⟩ ⟨0, [], 0, 1, true, true, true, false, 0, 0, 0⟩ [PoolLabel.submit] =
        some ⟨0, [], 0, 1, true, true, true, true, 0, 0, 0⟩ ∧
      (∀ l ∈ [PoolLabel.submit], poolIsPostInit l = false)) ∧
    (semRun ⟨1⟩ semInitState [SemLabel.stopCall, SemLabel.stopComplete] =
        some ⟨0, [], true, true, true, 0, 0, 0⟩ ∧
      semRun ⟨1⟩ ⟨0, [], true, true, true, 0, 0, 0⟩ [SemLabel.submit] =
        some ⟨0, [], true, true, true, 0, 0, 0⟩ ∧
      (∀ l ∈ [SemLabel.submit], semIsPostInit l = false)) ∧
    (hybRun ⟨1, 1, 1⟩ hybInitState
        [HybLabel.stopCall, HybLabel.dispatcherExit, HybLabel.stopComplete] =
          some ⟨0, 0, [], 1, true, true, true, 0, 0, 0⟩ ∧
      hybRun ⟨1, 1, 1⟩ ⟨0, 0, [], 1, true, true, true, 0, 0, 0⟩ [HybLabel.submit] =
        some ⟨0, 0, [], 1, true, true, true, 0, 0, 0⟩ ∧
      (∀ l ∈ [HybLabel.submit], hybIsPostInit l = false)) :=
  ⟨⟨by decide, by decide,
    claim_C6_amended.1 ⟨1, 1⟩
      [PoolLabel.stopCall, PoolLabel.workerExit, PoolLabel.stopComplete]
      ⟨0, [], 0, 1, true, true, true, false, 0, 0, 0⟩ (by decide) (by decide)
      [PoolLabel.submit] ⟨0, [], 0, 1, true, true, true, true, 0, 0, 0⟩ (by decide)⟩,
   ⟨by decide, by decide,
    claim_C6_amended.2.1 ⟨1⟩ [SemLabel.stopCall, SemLabel.stopComplete]
      ⟨0, [], true, true, true, 0, 0, 0⟩ (by decide) (by decide)
      [SemLabel.submit] ⟨0, [], true, true, true, 0, 0, 0⟩ (by decide)⟩,
   ⟨by decide, by decide,
    claim_C6_amended.2.2 ⟨1, 1, 1⟩
      [HybLabel.stopCall, HybLabel.dispatcherExit, HybLabel.stopComplete]
      ⟨0, 0, [], 1, true, true, true, 0, 0, 0⟩ (by decide) (by decide)
      [HybLabel.submit] ⟨0, 0, [], 1, true, true, true, 0, 0, 0⟩ (by decide)⟩⟩

/-- Claim C7 counterexample: with one accepted task still queued, the
timeout return of `Stop` leaves `jobs_failed_total` at 0 — the code's
timeout branch only logs a warning. -/
theorem claim_C7_counterexample : ¬ claimC7AsStated := by
  intro h
  have := h ⟨1, 1⟩ [PoolLabel.submit, PoolLabel.stopCall]
    ⟨1, [], 1, 0, true, false, false, false, 0, 0, 0⟩
    ⟨1, [], 1, 0, true, true, false, false, 0, 0, 0⟩ (by decide) (by decide)
  exact absurd this (by decide)

/-- Claim C7 (amended): when the shutdown timeout expires, tasks accepted
but not yet picked up are neither counted as failed nor dropped by the
forwarder — the timeout step leaves both counters, the queue and the
in-flight set untouched (the tasks are abandoned to the still-running
workers, and released only when the process exits). -/
theorem claim_C7_amended (cfg : PoolCfg) (s s' : PoolState)
    (hstep : poolStep cfg s PoolLabel.stopTimeout = some s') :
    s'.failed = s.failed ∧ s'.processed = s.processed ∧ s'.queued = s.queued ∧
    s'.inflight = s.inflight := by
  simp only [poolStep] at hstep
  split at hstep
  · exact absurd hstep (by simp)
  · split at hstep
    · simp only [Option.some.injEq] at hstep
      subst hstep
      exact ⟨rfl, rfl, rfl, rfl⟩
    · exact absurd hstep (by simp)

theorem claim_C7_witness :
    poolStep ⟨1, 1⟩ ⟨1, [], 1, 0, true, false, false, false, 0, 0, 0⟩
        PoolLabel.stopTimeout =
      some ⟨1, [], 1, 0, true, true, false, false, 0, 0, 0⟩ ∧
    ((0 : Nat) = 0 ∧ (0 : Nat) = 0 ∧ (1 : Nat) = 1 ∧
      ([] : List JobOutcome) = []) :=
  ⟨by decide,
   claim_C7_amended ⟨1, 1⟩ ⟨1, [], 1, 0, true, false, false, false, 0, 0, 0⟩
     ⟨1, [], 1, 0, true, true, false, false, 0, 0, 0⟩ (by decide)⟩

/-- Claim C8 counterexample: the pool worker's response path performs no
read-to-EOF of the response body at all — its event trace contains no
drain before the close. -/
theorem claim_C8_counterexample : ¬ claimC8AsStated := by
  intro h
  obtain ⟨⟨i, j, _, hi, _⟩, _, _⟩ := h ⟨[], "", []⟩ 200
  have hmem : WorkerEvent.drainBody ∈
      workerProcessJob ⟨[], "", []⟩ (JobOutcome.response 200) := List.get?_mem hi
  exact absurd hmem (by decide)

/-- Claim C8 (amended): on every sender exit path that received a
response — success and non-2xx alike — the response body is closed, but it
is not read to completion first: no drain occurs anywhere in any sender
execution, in any of the three variants. -/
theorem claim_C8_amended (job : Job) (o : JobOutcome) (st : Nat) :
    (WorkerEvent.closeBody ∈ workerProcessJob job (JobOutcome.response st) ∧
      WorkerEvent.closeBody ∈ semaphoreTaskEvents job (JobOutcome.response st) ∧
      WorkerEvent.closeBody ∈ hybridSendEvents job (JobOutcome.response st)) ∧
    (WorkerEvent.drainBody ∉ workerProcessJob job o ∧
      WorkerEvent.drainBody ∉ semaphoreTaskEvents job o ∧
      WorkerEvent.drainBody ∉ hybridSendEvents job o) := by
  constructor
  · refine ⟨?_, ?_, ?_⟩ <;>
      simp [workerProcessJob, semaphoreTaskEvents, hybridSendEvents]
  · cases o with
    | createError =>
      refine ⟨?_, ?_, ?_⟩ <;>
        simp [workerProcessJob, semaphoreTaskEvents, hybridSendEvents]
    | transportError =>
      refine ⟨?_, ?_, ?_⟩ <;>
        simp [workerProcessJob, semaphoreTaskEvents, hybridSendEvents]
    | response st' =>
      refine ⟨?_, ?_, ?_⟩ <;>
        by_cases hst : st' < 200 ∨ 300 ≤ st' <;>
          simp [workerProcessJob, semaphoreTaskEvents, hybridSendEvents,
            classifyEvents, hst]

/-- Claim C9 counterexample: with an empty credential a client-sent
`Authorization` header passes through to the upstream request — the code
only skips the override, it never removes the header. -/
theorem claim_C9_counterexample : ¬ claimC9AsStated := by
  intro h
  have hwf : parsedHeaderWF [("Authorization", ["secret"])] := by
    constructor
    · intro a ha
      simp at ha
      subst ha
      decide
    · simp [headerKeysNodup]
  have := h [("Authorization", ["secret"])] hwf
  exact absurd this (by decide)

/-- Claim C9 (amended): with an empty credential no injection is
performed: the `Authorization` values on the upstream request are exactly
those the client sent — in particular the header is absent iff the client
sent none. -/
theorem claim_C9_amended (reqHeaders : Header) (hWF : parsedHeaderWF reqHeaders) :
    Header.values (buildAsyncHeaders reqHeaders "") "Authorization" =
      Header.values reqHeaders "Authorization" :=
  buildAsync_auth_passthrough reqHeaders hWF

theorem claim_C9_witness :
    parsedHeaderWF [("Authorization", ["secret"])] ∧
    Header.values (buildAsyncHeaders [("Authorization", ["secret"])] "") "Authorization" =
      Header.values [("Authorization", ["secret"])] "Authorization" := by
  have hwf : parsedHeaderWF [("Authorization", ["secret"])] := by
    constructor
    · intro a ha
      simp at ha
      subst ha
      decide
    · simp [headerKeysNodup]
  exact ⟨hwf, claim_C9_amended [("Authorization", ["secret"])] hwf⟩

/-- Claim C10: on the sync-debug logs path, the upstream status and body
are returned to the client, every upstream response header whose lowercase
name starts with `access-control-` — and `Vary`, `Content-Length`,
`Transfer-Encoding`, `Connection` — is dropped, and every other upstream
response header is copied with all its values. -/
theorem claim_C10 (respStatus : Nat) (respBody : List Nat) (respHeaders : Header)
    (hWF : parsedHeaderWF respHeaders) :
    (handleLogsSyncReply respStatus respBody respHeaders).status = respStatus ∧
    (handleLogsSyncReply respStatus respBody respHeaders).body = respBody ∧
    (∀ (k : String) (vals : List String), (k, vals) ∈ respHeaders →
      (dropRespHeaderKey k = true →
        Header.values (handleLogsSyncReply respStatus respBody respHeaders).headers k =
          []) ∧
      (dropRespHeaderKey k = false →
        Header.values (handleLogsSyncReply respStatus respBody respHeaders).headers k =
          vals)) := by
  refine ⟨rfl, rfl, ?_⟩
  intro k vals hmem
  constructor
  · intro hdrop
    show Header.values (copyRespHeaders respHeaders) k = []
    unfold copyRespHeaders
    rw [values_copyAux_skipentry _ respHeaders [] k vals hWF.1 hWF.2 hmem hdrop]
    rfl
  · intro hkeep
    show Header.values (copyRespHeaders respHeaders) k = vals
    unfold copyRespHeaders
    rw [values_copyAux_mem _ respHeaders [] k vals hWF.1 hWF.2 hmem hkeep]
    rfl

theorem claim_C10_witness :
    parsedHeaderWF [("Content-Length", ["5"]), ("X-Id", ["7", "8"])] ∧
    ((handleLogsSyncReply 418 [1] [("Content-Length", ["5"]), ("X-Id", ["7", "8"])]).status =
        418 ∧
      (handleLogsSyncReply 418 [1] [("Content-Length", ["5"]), ("X-Id", ["7", "8"])]).body =
        [1] ∧
      (∀ (k : String) (vals : List String),
        (k, vals) ∈ [("Content-Length", ["5"]), ("X-Id", ["7", "8"])] →
        (dropRespHeaderKey k = true →
          Header.values
            (handleLogsSyncReply 418 [1]
              [("Content-Length", ["5"]), ("X-Id", ["7", "8"])]).headers k = []) ∧
        (dropRespHeaderKey k = false →
          Header.values
            (handleLogsSyncReply 418 [1]
              [("Content-Length", ["5"]), ("X-Id", ["7", "8"])]).headers k = vals))) := by
  have hwf : parsedHeaderWF [("Content-Length", ["5"]), ("X-Id", ["7", "8"])] := by
    constructor
    · intro a ha
      simp at ha
      rcases ha with rfl | rfl <;> decide
    · simp [headerKeysNodup]
  exact ⟨hwf, claim_C10 418 [1] [("Content-Length", ["5"]), ("X-Id", ["7", "8"])] hwf⟩

end Otlpxy
